import Mathlib

/-!
Shallow embedding of the multiswap AMM contract
(src/multiswap/src/pool.rs and src/multiswap/src/lib.rs).

Conventions of the embedding:
* `AccountId` is `String`; NEAR account-id validity is enforced upstream of the
  modelled functions and is not re-modelled here.
* Rust `u128` (`Balance`) and the 256-bit `U256` of `construct_uint!` are
  modelled as `Nat` together with explicit bound checks: every `U256`
  multiplication, addition and `as_u128` narrowing panics on overflow in the
  source (the `uint` crate checks unconditionally), and `u128` arithmetic
  panics on overflow per the ArithmeticOverflow abort policy of the contract
  (the release profile with overflow checks is not part of src, so the abort
  on `u128` overflow is taken from the error model of the spec).
* A Rust panic (`assert!`, `expect`, index out of bounds, arithmetic overflow)
  aborts the whole call with no state change on the NEAR runtime, so every
  state-changing operation is modelled as an `Option`-valued function: `none`
  means the call aborted and the caller keeps the pre-call state.
* `near_sdk::collections::LookupMap` and `std::collections::HashMap` are
  modelled as association lists whose insert replaces the first entry with the
  given key; the cross-contract `ft_transfer` promises issued on success are
  represented by the returned amounts.
-/

/-- `AccountId` from near-sdk, an account name string. -/
abbrev AccountId := String

/-- `FEE_DIVISOR` from pool.rs: fees are parts per thousand. -/
def FEE_DIVISOR : Nat := 1000

/-- `MAX_NUM_TOKENS` from pool.rs. -/
def MAX_NUM_TOKENS : Nat := 10

/-- `INIT_SHARES_SUPPLY` from pool.rs: shares minted to the first provider. -/
def INIT_SHARES_SUPPLY : Nat := 1000000000000000000000

/-- One past the largest `u128` value. -/
def U128MOD : Nat := 2 ^ 128

/-- One past the largest `U256` value. -/
def U256MOD : Nat := 2 ^ 256

/-- `LookupMap::get` / `HashMap::get`: value of the first entry with the key. -/
def lkGet {α : Type} : List (AccountId × α) → AccountId → Option α
  | [], _ => none
  | e :: rest, k => if e.1 = k then some e.2 else lkGet rest k

/-- `LookupMap::insert` / `HashMap::insert`: replace the first entry with the
key, or append a new entry. -/
def lkInsert {α : Type} : List (AccountId × α) → AccountId → α → List (AccountId × α)
  | [], k, v => [(k, v)]
  | e :: rest, k, v => if e.1 = k then (k, v) :: rest else e :: lkInsert rest k v

/-- `LookupMap::remove` / `HashMap::remove`: drop the first entry with the key. -/
def lkRemove {α : Type} : List (AccountId × α) → AccountId → List (AccountId × α)
  | [], _ => []
  | e :: rest, k => if e.1 = k then rest else e :: lkRemove rest k

/-- Sum of the values of a share map. -/
def mapSum (m : List (AccountId × Nat)) : Nat := (m.map (·.2)).sum

/-- `U256` multiplication; the uint crate panics on overflow. -/
def u256mul (a b : Nat) : Option Nat :=
  if a * b < U256MOD then some (a * b) else none

/-- `U256` addition; the uint crate panics on overflow. -/
def u256add (a b : Nat) : Option Nat :=
  if a + b < U256MOD then some (a + b) else none

/-- `U256` division; the uint crate panics on division by zero. -/
def u256div (a b : Nat) : Option Nat :=
  if b = 0 then none else some (a / b)

/-- `U256::as_u128`; the uint crate panics when the value needs more than 128 bits. -/
def u256asU128 (a : Nat) : Option Nat :=
  if a < U128MOD then some a else none

/-- Checked `u128` addition (overflow aborts the call). -/
def u128add (a b : Nat) : Option Nat :=
  if a + b < U128MOD then some (a + b) else none

/-- Checked `u128` subtraction (underflow aborts the call). -/
def u128sub (a b : Nat) : Option Nat :=
  if b ≤ a then some (a - b) else none

/-- `Pool` from pool.rs. The storage-prefix argument of the `shares`
`LookupMap` is bookkeeping for the backing trie and is dropped. -/
structure Pool where
  token_account_ids : List AccountId
  amounts : List Nat
  fee : Nat
  shares : List (AccountId × Nat)
  shares_total_supply : Nat
deriving DecidableEq, Repr

/-- `Pool::new` from pool.rs: asserts `fee < FEE_DIVISOR` and
`token_account_ids.len() < MAX_NUM_TOKENS`; no other validation. -/
def Pool.new (_id : Nat) (token_account_ids : List AccountId) (fee : Nat) : Option Pool :=
  if fee < FEE_DIVISOR then
    if token_account_ids.length < MAX_NUM_TOKENS then
      some { token_account_ids := token_account_ids
             amounts := List.replicate token_account_ids.length 0
             fee := fee
             shares := []
             shares_total_supply := 0 }
    else none
  else none

/-- One iteration of the `for` loop in `Pool::add_liquidity` (first
provision): `self.amounts[i] += amounts[i]`, with index and overflow panics. -/
def addStep (amounts : List Nat) (acc : List Nat) (i : Nat) : Option (List Nat) :=
  if i < acc.length ∧ i < amounts.length then
    (u128add (acc.getD i 0) (amounts.getD i 0)).map fun v => acc.set i v
  else none

/-- `Pool::add_liquidity` from pool.rs. When the pool already has shares the
body of that branch is the placeholder comment `// count the amounts` and the
function returns 0 without touching any state; otherwise it adds the amounts
to the reserves, sets the total share supply to `INIT_SHARES_SUPPLY` and
records that supply for the sender. -/
def Pool.add_liquidity (p : Pool) (sender_id : AccountId) (amounts : List Nat) :
    Option (Pool × Nat) :=
  if 0 < p.shares_total_supply then
    some (p, 0)
  else
    ((List.range p.token_account_ids.length).foldlM (addStep amounts) p.amounts).map
      fun newAmounts =>
        ({ p with amounts := newAmounts
                  shares_total_supply := INIT_SHARES_SUPPLY
                  shares := lkInsert p.shares sender_id INIT_SHARES_SUPPLY },
         INIT_SHARES_SUPPLY)

/-- One iteration of the `for` loop in `Pool::remove_liquidity`: computes
`amount = amounts[i] * shares / total` in `U256`, narrows with `as_u128`,
asserts `amount >= min_amounts[i]`, and performs `self.amounts[i] -= amount`.
The accumulator carries the evolving reserve list and the amounts sent out. -/
def removeStep (shares total : Nat) (min_amounts : List Nat)
    (acc : List Nat × List Nat) (i : Nat) : Option (List Nat × List Nat) :=
  if i < acc.1.length ∧ i < min_amounts.length then
    (u256mul (acc.1.getD i 0) shares).bind fun num =>
    (u256div num total).bind fun q =>
    (u256asU128 q).bind fun amount =>
    if min_amounts.getD i 0 ≤ amount then
      (u128sub (acc.1.getD i 0) amount).map fun newBal =>
        (acc.1.set i newBal, acc.2 ++ [amount])
    else none
  else none

/-- `Pool::remove_liquidity` from pool.rs: requires an existing share entry
(`expect("ERR_NO_SHARES")`) covering `shares`, runs the per-token loop, then
updates the share map (removing the entry when it is emptied) and decrements
the total supply. The returned list holds the per-token `ft_transfer`
amounts issued on success. -/
def Pool.remove_liquidity (p : Pool) (sender_id : AccountId) (shares : Nat)
    (min_amounts : List Nat) : Option (Pool × List Nat) :=
  (lkGet p.shares sender_id).bind fun prev_shares_amount =>
  if shares ≤ prev_shares_amount then
    ((List.range p.token_account_ids.length).foldlM
        (removeStep shares p.shares_total_supply min_amounts) (p.amounts, [])).bind
      fun res =>
        (u128sub p.shares_total_supply shares).map fun newTotal =>
          ({ p with amounts := res.1
                    shares :=
                      if prev_shares_amount = shares then lkRemove p.shares sender_id
                      else lkInsert p.shares sender_id (prev_shares_amount - shares)
                    shares_total_supply := newTotal },
           res.2)
  else none

/-- `Pool::token_index` from pool.rs: first position of the token, panic when
missing (`expect("ERR_MISSING_TOKEN")`). -/
def Pool.token_index (p : Pool) (token_id : AccountId) : Option Nat :=
  p.token_account_ids.findIdx? (fun id => id == token_id)

/-- `Pool::get_return_idx` from pool.rs: reads both reserves (indexing panics
out of bounds), asserts both positive, distinct indices and a positive input,
then computes `amount_with_fee * out_balance / (FEE_DIVISOR * in_balance +
amount_with_fee)` in `U256` and narrows with `as_u128`. -/
def Pool.get_return_idx (p : Pool) (token_in : Nat) (amount_in : Nat) (token_out : Nat) :
    Option Nat :=
  if token_in < p.amounts.length ∧ token_out < p.amounts.length then
    let in_balance := p.amounts.getD token_in 0
    let out_balance := p.amounts.getD token_out 0
    if 0 < in_balance ∧ 0 < out_balance ∧ token_in ≠ token_out ∧ 0 < amount_in then
      (u256mul amount_in (FEE_DIVISOR - p.fee)).bind fun amount_with_fee =>
      (u256mul amount_with_fee out_balance).bind fun num =>
      (u256mul FEE_DIVISOR in_balance).bind fun d1 =>
      (u256add d1 amount_with_fee).bind fun den =>
      (u256div num den).bind fun q =>
      u256asU128 q
    else none
  else none

/-- `Pool::get_return` from pool.rs: resolve both token indices, then price. -/
def Pool.get_return (p : Pool) (token_in : AccountId) (amount_in : Nat)
    (token_out : AccountId) : Option Nat :=
  (p.token_index token_in).bind fun i =>
  (p.token_index token_out).bind fun j =>
  p.get_return_idx i amount_in j

/-- `Pool::swap` from pool.rs: price via `get_return_idx`, assert the minimum
output, then `amounts[in_idx] += amount_in` and `amounts[out_idx] -= amount_out`.
The `ft_transfer` promise of the output is represented by the returned amount. -/
def Pool.swap (p : Pool) (_sender_id : AccountId) (token_in : AccountId)
    (amount_in : Nat) (token_out : AccountId) (min_amount_out : Nat) :
    Option (Pool × Nat) :=
  (p.token_index token_in).bind fun in_idx =>
  (p.token_index token_out).bind fun out_idx =>
  (p.get_return_idx in_idx amount_in out_idx).bind fun amount_out =>
  if min_amount_out ≤ amount_out then
    (u128add (p.amounts.getD in_idx 0) amount_in).bind fun new_in =>
    let amounts1 := p.amounts.set in_idx new_in
    (u128sub (amounts1.getD out_idx 0) amount_out).map fun new_out =>
      ({ p with amounts := amounts1.set out_idx new_out }, amount_out)
  else none

/-- Well-formedness of a pool state as enforced by the Rust types and the
constructor: the reserve list matches the token list, every stored balance
and the share supply fit in `u128`, and the fee passed the constructor check. -/
def Pool.wf (p : Pool) : Prop :=
  p.amounts.length = p.token_account_ids.length ∧
  (∀ a ∈ p.amounts, a < U128MOD) ∧
  p.fee < FEE_DIVISOR ∧
  p.shares_total_supply < U128MOD

instance (p : Pool) : Decidable p.wf := by
  unfold Pool.wf; infer_instance

/-- The contract state from lib.rs: the pool registry and the per-account
deposit ledger (`LookupMap<AccountId, HashMap<AccountId, Balance>>`). -/
structure Contract where
  pools : List Pool
  deposited_amounts : List (AccountId × List (AccountId × Nat))
deriving DecidableEq, Repr

/-- `Contract::internal_deposit` from lib.rs: looks up the sender record
(`expect("ERR_NOT_REGISTERED")`), asserts at most ten tokens recorded, and
stores `amount` for the token with `HashMap::insert`, which REPLACES any
previously recorded balance for that token. -/
def Contract.internal_deposit (c : Contract) (sender_id token_id : AccountId)
    (amount : Nat) : Option Contract :=
  (lkGet c.deposited_amounts sender_id).bind fun amounts =>
  if amounts.length ≤ 10 then
    some { c with deposited_amounts :=
            lkInsert c.deposited_amounts sender_id (lkInsert amounts token_id amount) }
  else none

/-- Ledger balance of an account for a token, 0 when absent. -/
def ledgerBalance (led : List (AccountId × List (AccountId × Nat)))
    (acct token : AccountId) : Nat :=
  (lkGet ((lkGet led acct).getD []) token).getD 0

/-- Modelled from the spec: `DepositLedger.credit(account, token, amount)`
adds to the recorded balance, creating the entry if absent (section 4.4).
The credit half of the router action loop is not part of src. -/
def ledgerCredit (led : List (AccountId × List (AccountId × Nat)))
    (acct token : AccountId) (amount : Nat) : List (AccountId × List (AccountId × Nat)) :=
  let m := (lkGet led acct).getD []
  lkInsert led acct (lkInsert m token ((lkGet m token).getD 0 + amount))

/-- Modelled from the spec: `DepositLedger.debit(account, token, amount)`
fails when `amount` exceeds the recorded balance and removes the entry when
the remainder is zero (section 4.4). The debit half of the router action
loop is not part of src. -/
def ledgerDebit (led : List (AccountId × List (AccountId × Nat)))
    (acct token : AccountId) (amount : Nat) :
    Option (List (AccountId × List (AccountId × Nat))) :=
  let m := (lkGet led acct).getD []
  let bal := (lkGet m token).getD 0
  if amount ≤ bal then
    some (lkInsert led acct
      (if bal = amount then lkRemove m token else lkInsert m token (bal - amount)))
  else none

/-- `SwapAction` of the router, as used by tests/test_swap.rs: pool id, input
token, optional explicit input amount (absent means the full ledger balance),
output token and minimum output. -/
structure SwapAction where
  pool_id : Nat
  token_in : AccountId
  amount_in : Option Nat
  token_out : AccountId
  min_amount_out : Nat
deriving DecidableEq, Repr

/-- Modelled from the spec: one router action of `SwapRouter.execute`
(section 4.5) — resolve the input amount, debit the ledger for the input
token, run `Pool::swap` of src on the named pool
(`expect("ERR_NO_POOL")` when absent), and credit the output. -/
def Contract.execute_action (c : Contract) (sender : AccountId) (a : SwapAction) :
    Option Contract :=
  (c.pools.get? a.pool_id).bind fun pool =>
  let amount_in :=
    match a.amount_in with
    | some v => v
    | none => ledgerBalance c.deposited_amounts sender a.token_in
  (ledgerDebit c.deposited_amounts sender a.token_in amount_in).bind fun led1 =>
  (pool.swap sender a.token_in amount_in a.token_out a.min_amount_out).bind
    fun pr =>
      some { pools := c.pools.set a.pool_id pr.1
             deposited_amounts := ledgerCredit led1 sender a.token_out pr.2 }

/-- Modelled from the spec: `SwapRouter.execute` over an ordered action
sequence (section 4.5); the multi-action entry referenced by
tests/test_swap.rs is not part of src. Each action runs in order inside one
call; the first failure aborts the whole fold. -/
def Contract.execute (c : Contract) (sender : AccountId) (actions : List SwapAction) :
    Option Contract :=
  actions.foldlM (fun s a => s.execute_action sender a) c

/-- The externally observable outcome of the router call: on the NEAR runtime
a panic anywhere in the call reverts every write of the call, so a failed
`execute` leaves the pre-call state. -/
def Contract.execute_entry (c : Contract) (sender : AccountId)
    (actions : List SwapAction) : Contract :=
  match c.execute sender actions with
  | some c' => c'
  | none => c

/-- Pool states reachable from creation through the state-changing pool
operations (the read-only `get_return` touches no state). -/
inductive Pool.Reach : Pool → Prop where
  | created : ∀ id tokens fee p, Pool.new id tokens fee = some p → Pool.Reach p
  | added : ∀ p s amts p' r, Pool.Reach p → p.add_liquidity s amts = some (p', r) →
      Pool.Reach p'
  | removed : ∀ p s sh mins p' outs, Pool.Reach p →
      p.remove_liquidity s sh mins = some (p', outs) → Pool.Reach p'
  | swapped : ∀ p s tin a tout mo p' out, Pool.Reach p →
      p.swap s tin a tout mo = some (p', out) → Pool.Reach p'

/-- A small live pool used to instantiate the theorems. -/
def poolA : Pool :=
  { token_account_ids := ["a", "b"], amounts := [5, 10], fee := 3,
    shares := [("u", 100)], shares_total_supply := 100 }

/-- The pool obtained from `poolA` by swapping 4 of token a into token b. -/
def poolB : Pool :=
  { token_account_ids := ["a", "b"], amounts := [9, 6], fee := 3,
    shares := [("u", 100)], shares_total_supply := 100 }

/-- A pool holding a reserve at the top of the u128 range; pricing a swap of
a u128-maximal input against it overflows the 256-bit intermediate product. -/
def poolOvf : Pool :=
  { token_account_ids := ["a", "b"], amounts := [1, U128MOD - 1], fee := 0,
    shares := [], shares_total_supply := 0 }

/-- The pool produced by `Pool.new 0 ["a", "b"] 3`. -/
def poolNew : Pool :=
  { token_account_ids := ["a", "b"], amounts := [0, 0], fee := 3,
    shares := [], shares_total_supply := 0 }

/-- A contract state with one registered account and no deposits. -/
def contractD : Contract :=
  { pools := [], deposited_amounts := [("u", [])] }

/-- A contract state for the router: one pool, one account holding 100 of
token a on the ledger. -/
def contractR : Contract :=
  { pools := [poolA], deposited_amounts := [("u", [("a", 100)])] }

/-- A router action that succeeds on `contractR`. -/
def actOk : SwapAction :=
  { pool_id := 0, token_in := "a", amount_in := some 4, token_out := "b",
    min_amount_out := 1 }

/-- A router action whose minimum output cannot be met after `actOk`. -/
def actSlip : SwapAction :=
  { pool_id := 0, token_in := "a", amount_in := some 4, token_out := "b",
    min_amount_out := 1000000 }

lemma getD_set_self : ∀ (l : List Nat) (i v : Nat), i < l.length → (l.set i v).getD i 0 = v
  | _ :: _, 0, _, _ => rfl
  | _ :: l, i + 1, v, h => getD_set_self l i v (Nat.lt_of_succ_lt_succ h)

lemma getD_set_ne : ∀ (l : List Nat) (i j v : Nat), i ≠ j → (l.set i v).getD j 0 = l.getD j 0
  | [], _, _, _, _ => rfl
  | _ :: _, 0, 0, _, h => absurd rfl h
  | _ :: _, 0, _ + 1, _, _ => rfl
  | _ :: _, _ + 1, 0, _, _ => rfl
  | _ :: l, i + 1, j + 1, v, h => getD_set_ne l i j v (fun hh => h (by omega))

lemma getD_mem : ∀ (l : List Nat) (i : Nat), i < l.length → l.getD i 0 ∈ l
  | a :: l, 0, _ => List.mem_cons_self a l
  | a :: l, i + 1, h => List.mem_cons_of_mem a (getD_mem l i (Nat.lt_of_succ_lt_succ h))

lemma mapSum_cons (e : AccountId × Nat) (m : List (AccountId × Nat)) :
    mapSum (e :: m) = e.2 + mapSum m := by
  simp [mapSum]

lemma mapSum_insert (m : List (AccountId × Nat)) (k : AccountId) (v : Nat) :
    mapSum (lkInsert m k v) + (lkGet m k).getD 0 = mapSum m + v := by
  induction m with
  | nil => simp [lkInsert, lkGet, mapSum]
  | cons e rest ih =>
    by_cases h : e.1 = k
    · simp only [lkInsert, lkGet, if_pos h, mapSum_cons, Option.getD_some]
      omega
    · simp only [lkInsert, lkGet, if_neg h, mapSum_cons]
      omega

lemma mapSum_remove (m : List (AccountId × Nat)) (k : AccountId) :
    mapSum (lkRemove m k) + (lkGet m k).getD 0 = mapSum m := by
  induction m with
  | nil => simp [lkRemove, lkGet, mapSum]
  | cons e rest ih =>
    by_cases h : e.1 = k
    · simp only [lkRemove, lkGet, if_pos h, mapSum_cons, Option.getD_some]
      omega
    · simp only [lkRemove, lkGet, if_neg h, mapSum_cons]
      omega

lemma lkGet_le_mapSum (m : List (AccountId × Nat)) (k : AccountId) :
    (lkGet m k).getD 0 ≤ mapSum m := by
  induction m with
  | nil => simp [lkGet, mapSum]
  | cons e rest ih =>
    by_cases h : e.1 = k
    · simp only [lkGet, if_pos h, Option.getD_some, mapSum_cons]
      omega
    · simp only [lkGet, if_neg h, mapSum_cons]
      omega

lemma mapSum_eq_zero {m : List (AccountId × Nat)} (h : mapSum m = 0) (k : AccountId) :
    (lkGet m k).getD 0 = 0 :=
  Nat.le_zero.mp (h ▸ lkGet_le_mapSum m k)

/-- The priced output is strictly below the output reserve. -/
lemma quote_lt (rin rout a k : Nat) (hrin : 0 < rin) (hrout : 0 < rout)
    (_hk : 0 < k) (_ha : 0 < a) :
    a * k * rout / (FEE_DIVISOR * rin + a * k) < rout := by
  have hfd : 0 < FEE_DIVISOR := by norm_num [FEE_DIVISOR]
  have hden : 0 < FEE_DIVISOR * rin + a * k := by
    have := Nat.mul_pos hfd hrin
    omega
  rw [Nat.div_lt_iff_lt_mul hden]
  have h1 : 0 < rout * (FEE_DIVISOR * rin) := Nat.mul_pos hrout (Nat.mul_pos hfd hrin)
  calc a * k * rout = rout * (a * k) := by ring
    _ < rout * (FEE_DIVISOR * rin) + rout * (a * k) := by omega
    _ = rout * (FEE_DIVISOR * rin + a * k) := by ring

/-- Constant-product monotonicity of the floored pricing formula: charging
the input and paying out the floored quote does not decrease the product of
the two reserves, as long as the fee factor stays within the divisor. -/
lemma quote_product (rin rout a k : Nat) (hrin : 0 < rin) (hrout : 0 < rout)
    (ha : 0 < a) (hk : 0 < k) (hk2 : k ≤ FEE_DIVISOR) :
    rin * rout ≤ (rin + a) * (rout - a * k * rout / (FEE_DIVISOR * rin + a * k)) := by
  have hfd : 0 < FEE_DIVISOR := by norm_num [FEE_DIVISOR]
  have hden : 0 < FEE_DIVISOR * rin + a * k := by
    have := Nat.mul_pos hfd hrin
    omega
  have hqd : a * k * rout / (FEE_DIVISOR * rin + a * k) * (FEE_DIVISOR * rin + a * k) ≤
      a * k * rout := Nat.div_mul_le_self _ _
  have hq_lt : a * k * rout / (FEE_DIVISOR * rin + a * k) < rout :=
    quote_lt rin rout a k hrin hrout hk ha
  set den := FEE_DIVISOR * rin + a * k with hden_def
  set q := a * k * rout / den with hq_def
  have hB : (rin + a) * q ≤ a * rout := by
    have hkle : (rin + a) * k ≤ den := by
      have h2 : rin * k ≤ FEE_DIVISOR * rin := by
        calc rin * k ≤ rin * FEE_DIVISOR := Nat.mul_le_mul_left rin hk2
          _ = FEE_DIVISOR * rin := Nat.mul_comm _ _
      calc (rin + a) * k = rin * k + a * k := by ring
        _ ≤ FEE_DIVISOR * rin + a * k := by omega
        _ = den := hden_def.symm
    have h1 : ((rin + a) * q) * den ≤ (a * rout) * den := by
      calc ((rin + a) * q) * den = (rin + a) * (q * den) := by ring
        _ ≤ (rin + a) * (a * k * rout) := Nat.mul_le_mul_left _ hqd
        _ = (a * rout) * ((rin + a) * k) := by ring
        _ ≤ (a * rout) * den := Nat.mul_le_mul_left _ hkle
    exact Nat.le_of_mul_le_mul_right h1 hden
  have hsplit : (rin + a) * (rout - q) + (rin + a) * q = rin * rout + a * rout := by
    have h2 : rout - q + q = rout := Nat.sub_add_cancel hq_lt.le
    calc (rin + a) * (rout - q) + (rin + a) * q = (rin + a) * ((rout - q) + q) := by ring
      _ = (rin + a) * rout := by rw [h2]
      _ = rin * rout + a * rout := by ring
  omega

lemma u256mul_eq_some {a b c : Nat} (h : u256mul a b = some c) :
    c = a * b ∧ a * b < U256MOD := by
  unfold u256mul at h
  split_ifs at h with hc
  cases h
  exact ⟨rfl, hc⟩

lemma u256add_eq_some {a b c : Nat} (h : u256add a b = some c) :
    c = a + b ∧ a + b < U256MOD := by
  unfold u256add at h
  split_ifs at h with hc
  cases h
  exact ⟨rfl, hc⟩

lemma u256div_eq_some {a b c : Nat} (h : u256div a b = some c) :
    c = a / b ∧ b ≠ 0 := by
  unfold u256div at h
  split_ifs at h with hc
  cases h
  exact ⟨rfl, hc⟩

lemma u256asU128_eq_some {a c : Nat} (h : u256asU128 a = some c) :
    c = a ∧ a < U128MOD := by
  unfold u256asU128 at h
  split_ifs at h with hc
  cases h
  exact ⟨rfl, hc⟩

lemma u128add_eq_some {a b c : Nat} (h : u128add a b = some c) :
    c = a + b ∧ a + b < U128MOD := by
  unfold u128add at h
  split_ifs at h with hc
  cases h
  exact ⟨rfl, hc⟩

lemma u128sub_eq_some {a b c : Nat} (h : u128sub a b = some c) :
    c = a - b ∧ b ≤ a := by
  unfold u128sub at h
  split_ifs at h with hc
  cases h
  exact ⟨rfl, hc⟩

/-- Inversion of a successful `get_return_idx`: the guards held and the
result is the floored constant-product formula. -/
lemma grx_some {p : Pool} {i a j out : Nat} (h : p.get_return_idx i a j = some out) :
    i < p.amounts.length ∧ j < p.amounts.length ∧
    0 < p.amounts.getD i 0 ∧ 0 < p.amounts.getD j 0 ∧ i ≠ j ∧ 0 < a ∧
    out = a * (FEE_DIVISOR - p.fee) * p.amounts.getD j 0 /
      (FEE_DIVISOR * p.amounts.getD i 0 + a * (FEE_DIVISOR - p.fee)) ∧
    out < U128MOD := by
  simp only [Pool.get_return_idx] at h
  split_ifs at h with h1 h2
  obtain ⟨awf, hawf, h⟩ := Option.bind_eq_some.mp h
  obtain ⟨num, hnum, h⟩ := Option.bind_eq_some.mp h
  obtain ⟨d1, hd1, h⟩ := Option.bind_eq_some.mp h
  obtain ⟨den, hden, h⟩ := Option.bind_eq_some.mp h
  obtain ⟨q, hq, h⟩ := Option.bind_eq_some.mp h
  obtain ⟨hawf1, _⟩ := u256mul_eq_some hawf
  obtain ⟨hnum1, _⟩ := u256mul_eq_some hnum
  obtain ⟨hd11, _⟩ := u256mul_eq_some hd1
  obtain ⟨hden1, _⟩ := u256add_eq_some hden
  obtain ⟨hq1, _⟩ := u256div_eq_some hq
  obtain ⟨hout, houtlt⟩ := u256asU128_eq_some h
  subst hawf1 hnum1 hd11 hden1 hq1 hout
  exact ⟨h1.1, h1.2, h2.1, h2.2.1, h2.2.2.1, h2.2.2.2, rfl, houtlt⟩

/-- Inversion of a successful `swap`: the indices resolved, the quote
succeeded, the minimum was met, and the new state updates exactly the two
affected reserves. -/
lemma swap_some {p : Pool} {s tin tout : AccountId} {a mo : Nat} {p' : Pool} {out : Nat}
    (h : p.swap s tin a tout mo = some (p', out)) :
    ∃ i j, p.token_index tin = some i ∧ p.token_index tout = some j ∧
      p.get_return_idx i a j = some out ∧ mo ≤ out ∧
      p.amounts.getD i 0 + a < U128MOD ∧ out ≤ p.amounts.getD j 0 ∧
      p'.amounts = (p.amounts.set i (p.amounts.getD i 0 + a)).set j
        (p.amounts.getD j 0 - out) ∧
      p'.token_account_ids = p.token_account_ids ∧ p'.fee = p.fee ∧
      p'.shares = p.shares ∧ p'.shares_total_supply = p.shares_total_supply := by
  simp only [Pool.swap] at h
  obtain ⟨i, hi, h⟩ := Option.bind_eq_some.mp h
  obtain ⟨j, hj, h⟩ := Option.bind_eq_some.mp h
  obtain ⟨amt, hamt, h⟩ := Option.bind_eq_some.mp h
  split_ifs at h with hmo
  obtain ⟨nin, hnin, h⟩ := Option.bind_eq_some.mp h
  obtain ⟨nout, hnout, h⟩ := Option.map_eq_some'.mp h
  obtain ⟨hnin1, hninlt⟩ := u128add_eq_some hnin
  obtain ⟨hnout1, hle⟩ := u128sub_eq_some hnout
  have hij : i ≠ j := (grx_some hamt).2.2.2.2.1
  have hgetj : (p.amounts.set i nin).getD j 0 = p.amounts.getD j 0 :=
    getD_set_ne _ _ _ _ hij
  subst hnin1
  rw [hgetj] at hnout1 hle
  cases h
  subst hnout1
  exact ⟨i, j, hi, hj, hamt, hmo, hninlt, hle, rfl, rfl, rfl, rfl, rfl⟩

lemma amounts_getD_lt {p : Pool} (hwf : p.wf) {i : Nat} (h : i < p.amounts.length) :
    p.amounts.getD i 0 < U128MOD :=
  hwf.2.1 _ (getD_mem _ _ h)

/-- C1 (amended): on a well-formed pool with a u128 input amount,
`get_return_idx` returns exactly the floored constant-product formula
`amountIn * (1000 - fee) * reserveOut / (1000 * reserveIn + amountIn * (1000 - fee))`
computed in the 256-bit domain, and it fails exactly when the indices are out
of range or equal, a reserve is zero, the input amount is zero, or the
256-bit numerator `amountIn * (1000 - fee) * reserveOut` overflows. -/
theorem get_return_idx_amended (p : Pool) (i a j : Nat) (hwf : p.wf) (ha : a < U128MOD) :
    p.get_return_idx i a j =
      if i < p.amounts.length ∧ j < p.amounts.length ∧ 0 < p.amounts.getD i 0 ∧
         0 < p.amounts.getD j 0 ∧ i ≠ j ∧ 0 < a ∧
         a * (FEE_DIVISOR - p.fee) * p.amounts.getD j 0 < U256MOD
      then some (a * (FEE_DIVISOR - p.fee) * p.amounts.getD j 0 /
        (FEE_DIVISOR * p.amounts.getD i 0 + a * (FEE_DIVISOR - p.fee)))
      else none := by
  have hfd : (0 : Nat) < FEE_DIVISOR := by norm_num [FEE_DIVISOR]
  have hk2 : FEE_DIVISOR - p.fee ≤ FEE_DIVISOR := Nat.sub_le _ _
  have hb2 : a * (FEE_DIVISOR - p.fee) ≤ U128MOD * FEE_DIVISOR := Nat.mul_le_mul ha.le hk2
  have hbig2 : U128MOD * FEE_DIVISOR < U256MOD := by decide
  have hawf_lt : a * (FEE_DIVISOR - p.fee) < U256MOD := by omega
  by_cases hC : i < p.amounts.length ∧ j < p.amounts.length ∧ 0 < p.amounts.getD i 0 ∧
      0 < p.amounts.getD j 0 ∧ i ≠ j ∧ 0 < a ∧
      a * (FEE_DIVISOR - p.fee) * p.amounts.getD j 0 < U256MOD
  · rw [if_pos hC]
    obtain ⟨hi, hj, hri, hrj, hij, ha0, hovf⟩ := hC
    have hk1 : 0 < FEE_DIVISOR - p.fee := by have := hwf.2.2.1; omega
    have hrin_lt := amounts_getD_lt hwf hi
    have hrout_lt := amounts_getD_lt hwf hj
    have hb1 : FEE_DIVISOR * p.amounts.getD i 0 ≤ FEE_DIVISOR * U128MOD :=
      Nat.mul_le_mul_left _ hrin_lt.le
    have hbig1 : FEE_DIVISOR * U128MOD + U128MOD * FEE_DIVISOR < U256MOD := by decide
    have hd1_lt : FEE_DIVISOR * p.amounts.getD i 0 < U256MOD := by omega
    have hden_lt : FEE_DIVISOR * p.amounts.getD i 0 + a * (FEE_DIVISOR - p.fee) < U256MOD := by
      omega
    have hdpos : 0 < FEE_DIVISOR * p.amounts.getD i 0 := Nat.mul_pos hfd hri
    have hden0 : ¬(FEE_DIVISOR * p.amounts.getD i 0 + a * (FEE_DIVISOR - p.fee) = 0) := by
      omega
    have hq_lt128 : a * (FEE_DIVISOR - p.fee) * p.amounts.getD j 0 /
        (FEE_DIVISOR * p.amounts.getD i 0 + a * (FEE_DIVISOR - p.fee)) < U128MOD :=
      lt_trans (quote_lt _ _ _ _ hri hrj hk1 ha0) hrout_lt
    have e1 : u256mul a (FEE_DIVISOR - p.fee) = some (a * (FEE_DIVISOR - p.fee)) := by
      unfold u256mul; rw [if_pos hawf_lt]
    have e2 : u256mul (a * (FEE_DIVISOR - p.fee)) (p.amounts.getD j 0) =
        some (a * (FEE_DIVISOR - p.fee) * p.amounts.getD j 0) := by
      unfold u256mul; rw [if_pos hovf]
    have e3 : u256mul FEE_DIVISOR (p.amounts.getD i 0) =
        some (FEE_DIVISOR * p.amounts.getD i 0) := by
      unfold u256mul; rw [if_pos hd1_lt]
    have e4 : u256add (FEE_DIVISOR * p.amounts.getD i 0) (a * (FEE_DIVISOR - p.fee)) =
        some (FEE_DIVISOR * p.amounts.getD i 0 + a * (FEE_DIVISOR - p.fee)) := by
      unfold u256add; rw [if_pos hden_lt]
    have e5 : u256div (a * (FEE_DIVISOR - p.fee) * p.amounts.getD j 0)
        (FEE_DIVISOR * p.amounts.getD i 0 + a * (FEE_DIVISOR - p.fee)) =
        some (a * (FEE_DIVISOR - p.fee) * p.amounts.getD j 0 /
          (FEE_DIVISOR * p.amounts.getD i 0 + a * (FEE_DIVISOR - p.fee))) := by
      unfold u256div; rw [if_neg hden0]
    have e6 : u256asU128 (a * (FEE_DIVISOR - p.fee) * p.amounts.getD j 0 /
        (FEE_DIVISOR * p.amounts.getD i 0 + a * (FEE_DIVISOR - p.fee))) =
        some (a * (FEE_DIVISOR - p.fee) * p.amounts.getD j 0 /
          (FEE_DIVISOR * p.amounts.getD i 0 + a * (FEE_DIVISOR - p.fee))) := by
      unfold u256asU128; rw [if_pos hq_lt128]
    simp only [Pool.get_return_idx, if_pos (And.intro hi hj),
      if_pos (show 0 < p.amounts.getD i 0 ∧ 0 < p.amounts.getD j 0 ∧ i ≠ j ∧ 0 < a from
        ⟨hri, hrj, hij, ha0⟩),
      e1, e2, e3, e4, e5, e6, Option.some_bind]
  · rw [if_neg hC]
    simp only [Pool.get_return_idx]
    by_cases h1 : i < p.amounts.length ∧ j < p.amounts.length
    · rw [if_pos h1]
      by_cases h2 : 0 < p.amounts.getD i 0 ∧ 0 < p.amounts.getD j 0 ∧ i ≠ j ∧ 0 < a
      · rw [if_pos h2]
        have hovf : ¬(a * (FEE_DIVISOR - p.fee) * p.amounts.getD j 0 < U256MOD) := by
          intro hcon
          exact hC ⟨h1.1, h1.2, h2.1, h2.2.1, h2.2.2.1, h2.2.2.2, hcon⟩
        have e1 : u256mul a (FEE_DIVISOR - p.fee) = some (a * (FEE_DIVISOR - p.fee)) := by
          unfold u256mul; rw [if_pos hawf_lt]
        have e2 : u256mul (a * (FEE_DIVISOR - p.fee)) (p.amounts.getD j 0) = none := by
          unfold u256mul; rw [if_neg hovf]
        simp only [e1, e2, Option.some_bind, Option.none_bind]
      · rw [if_neg h2]
    · rw [if_neg h1]

/-- Witness for C1: the amended theorem evaluated on a live pool. -/
theorem get_return_idx_amended_witness : poolA.get_return_idx 0 4 1 = some 4 := by
  have h := get_return_idx_amended poolA 0 4 1 (by decide) (by decide)
  rw [h]
  decide

/-- C1 counterexample: on a pool with reserves `[1, 2^128 - 1]`, zero fee and
input amount `2^128 - 1`, every failure condition named by the claim is false
(distinct tokens, both reserves positive, positive input), yet the operation
aborts: the 256-bit intermediate product overflows, so `get_return_idx` does
not return the floored formula. -/
theorem get_return_idx_overflow_cex :
    (0 < poolOvf.amounts.getD 0 0 ∧ 0 < poolOvf.amounts.getD 1 0 ∧
      (0 : Nat) ≠ 1 ∧ 0 < U128MOD - 1 ∧ poolOvf.fee < FEE_DIVISOR) ∧
    poolOvf.get_return_idx 0 (U128MOD - 1) 1 = none := by decide

/-- C2: a successful swap never decreases the product of the two affected
reserves (constant-product invariant non-decreasing under the fee). -/
theorem swap_product_nondecreasing (p : Pool) (s tin tout : AccountId)
    (a mo : Nat) (p' : Pool) (out i j : Nat) (hwf : p.wf)
    (hi : p.token_index tin = some i) (hj : p.token_index tout = some j)
    (hs : p.swap s tin a tout mo = some (p', out)) :
    p.amounts.getD i 0 * p.amounts.getD j 0 ≤
      p'.amounts.getD i 0 * p'.amounts.getD j 0 := by
  obtain ⟨i', j', hi', hj', hq, hmo, hofl, hle, hamts, -, -, -, -⟩ := swap_some hs
  rw [hi] at hi'
  rw [hj] at hj'
  cases hi'
  cases hj'
  obtain ⟨hilen, hjlen, hri, hrj, hij, ha0, hout_eq, -⟩ := grx_some hq
  have hk1 : 0 < FEE_DIVISOR - p.fee := by have := hwf.2.2.1; omega
  have hk2 : FEE_DIVISOR - p.fee ≤ FEE_DIVISOR := Nat.sub_le _ _
  have hgi : p'.amounts.getD i 0 = p.amounts.getD i 0 + a := by
    rw [hamts, getD_set_ne _ j i _ (Ne.symm hij),
      getD_set_self _ _ _ hilen]
  have hgj : p'.amounts.getD j 0 = p.amounts.getD j 0 - out := by
    rw [hamts, getD_set_self _ _ _ (by simpa using hjlen)]
  rw [hgi, hgj, hout_eq]
  exact quote_product _ _ _ _ hri hrj ha0 hk1 hk2

/-- Witness for C2 on a live pool and swap. -/
theorem swap_product_nondecreasing_witness :
    poolA.amounts.getD 0 0 * poolA.amounts.getD 1 0 ≤
      poolB.amounts.getD 0 0 * poolB.amounts.getD 1 0 :=
  swap_product_nondecreasing poolA "u" "a" "b" 4 1 poolB 4 0 1
    (by decide) (by decide) (by decide) (by decide)

/-- C3: a successful swap adds the input amount to the input reserve, pays
the output amount out of the output reserve (which covers it), leaves every
other reserve unchanged, and changes neither the total shares nor any share
balance. -/
theorem swap_conservation (p : Pool) (s tin tout : AccountId) (a mo : Nat)
    (p' : Pool) (out i j : Nat)
    (hi : p.token_index tin = some i) (hj : p.token_index tout = some j)
    (hs : p.swap s tin a tout mo = some (p', out)) :
    p'.amounts.getD i 0 = p.amounts.getD i 0 + a ∧
    p'.amounts.getD j 0 = p.amounts.getD j 0 - out ∧
    out ≤ p.amounts.getD j 0 ∧
    (∀ m, m ≠ i → m ≠ j → p'.amounts.getD m 0 = p.amounts.getD m 0) ∧
    p'.amounts.length = p.amounts.length ∧
    p'.shares_total_supply = p.shares_total_supply ∧
    p'.shares = p.shares := by
  obtain ⟨i', j', hi', hj', hq, hmo, hofl, hle, hamts, -, -, hsh, hts⟩ := swap_some hs
  rw [hi] at hi'
  rw [hj] at hj'
  cases hi'
  cases hj'
  obtain ⟨hilen, hjlen, hri, hrj, hij, ha0, -, -⟩ := grx_some hq
  refine ⟨?_, ?_, hle, ?_, ?_, hts, hsh⟩
  · rw [hamts, getD_set_ne _ j i _ (Ne.symm hij), getD_set_self _ _ _ hilen]
  · rw [hamts, getD_set_self _ _ _ (by simpa using hjlen)]
  · intro m hmi hmj
    rw [hamts, getD_set_ne _ j m _ (Ne.symm hmj), getD_set_ne _ i m _ (Ne.symm hmi)]
  · rw [hamts]
    simp

/-- Witness for C3: the input-side reserve update on a live swap. -/
theorem swap_conservation_witness :
    poolB.amounts.getD 0 0 = poolA.amounts.getD 0 0 + 4 :=
  (swap_conservation poolA "u" "a" "b" 4 1 poolB 4 0 1
    (by decide) (by decide) (by decide)).1

/-- C4 (code bug): on any pool that already has shares, `add_liquidity`
reaches the unimplemented branch (`// count the amounts`), succeeds, mints
zero shares and leaves the pool state exactly unchanged, contradicting the
specified proportional-mint-or-reject behaviour. -/
theorem add_liquidity_stub (p : Pool) (s : AccountId) (amts : List Nat)
    (h : 0 < p.shares_total_supply) :
    p.add_liquidity s amts = some (p, 0) := by
  simp [Pool.add_liquidity, h]

/-- Witness for C4: the stub branch on a live pool. -/
theorem add_liquidity_stub_witness : poolA.add_liquidity "u" [1, 1] = some (poolA, 0) :=
  add_liquidity_stub poolA "u" [1, 1] (by decide)

/-- C5 (code bug): two successive deposit credits of 5 then 7 for the same
account and token leave a recorded balance of 7, not 5 + 7:
`internal_deposit` stores with `HashMap::insert`, which replaces the previous
balance instead of adding to it. -/
theorem internal_deposit_overwrites :
    ((contractD.internal_deposit "u" "t" 5).bind
        (fun c => c.internal_deposit "u" "t" 7)).map
      (fun c => ledgerBalance c.deposited_amounts "u" "t") = some 7 ∧
    (7 : Nat) ≠ 5 + 7 := by decide

/-- C8 counterexample: `Pool::new` accepts a duplicate token list and rejects
a list of ten distinct tokens, contradicting both the duplicate check and the
inclusive upper bound of the claim. -/
theorem pool_new_checks_cex :
    (Pool.new 0 ["a", "a"] 3).isSome = true ∧
    Pool.new 0 ["t0", "t1", "t2", "t3", "t4", "t5", "t6", "t7", "t8", "t9"] 3 = none := by
  decide

/-- C8 (amended): pool creation fails exactly when `fee >= 1000` or the token
list has 10 or more entries; no duplicate or minimum-length validation is
performed, and the created pool has every reserve 0 and zero total shares. -/
theorem pool_new_spec (id : Nat) (tokens : List AccountId) (fee : Nat) :
    Pool.new id tokens fee =
      if fee < FEE_DIVISOR ∧ tokens.length < MAX_NUM_TOKENS then
        some { token_account_ids := tokens,
               amounts := List.replicate tokens.length 0,
               fee := fee, shares := [], shares_total_supply := 0 }
      else none := by
  unfold Pool.new
  split_ifs <;> simp_all

/-- C10: on a well-formed pool every successful quote is strictly below the
output reserve and fits in u128 (so the narrowing to the balance type never
truncates and the reserve subtraction never underflows), and both affected
reserves of a successful swap stay strictly positive. -/
theorem swap_safety (p : Pool) (hwf : p.wf) :
    (∀ i a j out, p.get_return_idx i a j = some out →
      out < p.amounts.getD j 0 ∧ out < U128MOD) ∧
    (∀ s tin tout a mo p' out i j, p.swap s tin a tout mo = some (p', out) →
      p.token_index tin = some i → p.token_index tout = some j →
      0 < p'.amounts.getD i 0 ∧ 0 < p'.amounts.getD j 0) := by
  have hk1 : 0 < FEE_DIVISOR - p.fee := by have := hwf.2.2.1; omega
  have part1 : ∀ i a j out, p.get_return_idx i a j = some out →
      out < p.amounts.getD j 0 ∧ out < U128MOD := by
    intro i a j out hq
    obtain ⟨hilen, hjlen, hri, hrj, hij, ha0, hout_eq, hout128⟩ := grx_some hq
    constructor
    · rw [hout_eq]
      exact quote_lt _ _ _ _ hri hrj hk1 ha0
    · exact hout128
  refine ⟨part1, ?_⟩
  intro s tin tout a mo p' out i j hs hi hj
  obtain ⟨i', j', hi', hj', hq, hmo, hofl, hle, hamts, -, -, -, -⟩ := swap_some hs
  rw [hi] at hi'
  rw [hj] at hj'
  cases hi'
  cases hj'
  obtain ⟨hilen, hjlen, hri, hrj, hij, ha0, -, -⟩ := grx_some hq
  have hout_lt := (part1 i a j out hq).1
  constructor
  · rw [hamts, getD_set_ne _ j i _ (Ne.symm hij), getD_set_self _ _ _ hilen]
    omega
  · rw [hamts, getD_set_self _ _ _ (by simpa using hjlen)]
    omega

/-- Witness for C10: the quote bound on a live pool. -/
theorem swap_safety_witness : 4 < poolA.amounts.getD 1 0 ∧ 4 < U128MOD :=
  (swap_safety poolA (by decide)).1 0 4 1 4 (by decide)

/-- Inversion of a successful `add_liquidity`: either the stub branch ran, or
the pool was bootstrapped. -/
lemma add_liquidity_some {p : Pool} {s : AccountId} {amts : List Nat} {p' : Pool} {r : Nat}
    (h : p.add_liquidity s amts = some (p', r)) :
    (0 < p.shares_total_supply ∧ p' = p ∧ r = 0) ∨
    (p.shares_total_supply = 0 ∧
      p'.shares = lkInsert p.shares s INIT_SHARES_SUPPLY ∧
      p'.shares_total_supply = INIT_SHARES_SUPPLY) := by
  unfold Pool.add_liquidity at h
  split_ifs at h with h0
  · left
    cases h
    exact ⟨h0, rfl, rfl⟩
  · right
    obtain ⟨na, hna, h⟩ := Option.map_eq_some'.mp h
    cases h
    exact ⟨by omega, rfl, rfl⟩

/-- Inversion of a successful `remove_liquidity`, share bookkeeping part. -/
lemma remove_liquidity_some {p : Pool} {s : AccountId} {sh : Nat} {mins : List Nat}
    {p' : Pool} {outs : List Nat}
    (h : p.remove_liquidity s sh mins = some (p', outs)) :
    ∃ prev, lkGet p.shares s = some prev ∧ sh ≤ prev ∧ sh ≤ p.shares_total_supply ∧
      p'.shares = (if prev = sh then lkRemove p.shares s
        else lkInsert p.shares s (prev - sh)) ∧
      p'.shares_total_supply = p.shares_total_supply - sh := by
  unfold Pool.remove_liquidity at h
  obtain ⟨prev, hprev, h⟩ := Option.bind_eq_some.mp h
  split_ifs at h with hle hps
  · obtain ⟨res, hres, h⟩ := Option.bind_eq_some.mp h
    obtain ⟨nt, hnt, h⟩ := Option.map_eq_some'.mp h
    obtain ⟨hnt1, hnt2⟩ := u128sub_eq_some hnt
    cases h
    subst hnt1
    exact ⟨prev, hprev, hle, hnt2, by rw [if_pos hps], rfl⟩
  · obtain ⟨res, hres, h⟩ := Option.bind_eq_some.mp h
    obtain ⟨nt, hnt, h⟩ := Option.map_eq_some'.mp h
    obtain ⟨hnt1, hnt2⟩ := u128sub_eq_some hnt
    cases h
    subst hnt1
    exact ⟨prev, hprev, hle, hnt2, by rw [if_neg hps], rfl⟩

/-- C9: in every pool state reachable from creation through the pool
operations (add liquidity, remove liquidity, swap; quoting is read-only),
the sum of all recorded share balances equals the total share supply. -/
theorem shares_sum_invariant (p : Pool) (h : Pool.Reach p) :
    mapSum p.shares = p.shares_total_supply := by
  induction h with
  | created id tokens fee p hnew =>
    unfold Pool.new at hnew
    split_ifs at hnew
    cases hnew
    rfl
  | added p s amts p' r hr hadd ih =>
    rcases add_liquidity_some hadd with ⟨h0, rfl, rfl⟩ | ⟨h0, hsh, hts⟩
    · exact ih
    · rw [hsh, hts]
      have hz : mapSum p.shares = 0 := by rw [ih, h0]
      have hg : (lkGet p.shares s).getD 0 = 0 := mapSum_eq_zero hz s
      have hins := mapSum_insert p.shares s INIT_SHARES_SUPPLY
      omega
  | removed p s sh mins p' outs hr hrem ih =>
    obtain ⟨prev, hprev, hle, hlet, hsh, hts⟩ := remove_liquidity_some hrem
    have hprev_le : prev ≤ mapSum p.shares := by
      have hg := lkGet_le_mapSum p.shares s
      rw [hprev] at hg
      simpa using hg
    rw [hts]
    by_cases hps : prev = sh
    · rw [hsh, if_pos hps]
      have hrm := mapSum_remove p.shares s
      rw [hprev] at hrm
      simp only [Option.getD_some] at hrm
      omega
    · rw [hsh, if_neg hps]
      have hins := mapSum_insert p.shares s (prev - sh)
      rw [hprev] at hins
      simp only [Option.getD_some] at hins
      omega
  | swapped p s tin a tout mo p' out hr hswap ih =>
    obtain ⟨i, j, -, -, -, -, -, -, -, -, -, hsh, hts⟩ := swap_some hswap
    rw [hsh, hts, ih]

/-- Witness for C9: the invariant on a freshly created pool. -/
theorem shares_sum_invariant_witness :
    mapSum poolNew.shares = poolNew.shares_total_supply :=
  shares_sum_invariant poolNew (Pool.Reach.created 0 ["a", "b"] 3 poolNew (by decide))

/-- C6: if any action of a router execute sequence fails, the externally
visible post-state is identical to the pre-call state — the runtime rolls
back every write of the aborted call, including the effects of earlier
actions in the same sequence that individually succeeded. -/
theorem execute_all_or_nothing (c : Contract) (sender : AccountId)
    (actions : List SwapAction) (h : c.execute sender actions = none) :
    (c.execute_entry sender actions).deposited_amounts = c.deposited_amounts ∧
    (c.execute_entry sender actions).pools = c.pools := by
  unfold Contract.execute_entry
  rw [h]
  exact ⟨rfl, rfl⟩

/-- Witness for C6: a two-action sequence whose first action succeeds on its
own and whose second violates its minimum output. -/
theorem execute_all_or_nothing_witness :
    (contractR.execute_entry "u" [actOk, actSlip]).deposited_amounts =
      contractR.deposited_amounts ∧
    (contractR.execute_entry "u" [actOk, actSlip]).pools = contractR.pools :=
  execute_all_or_nothing contractR "u" [actOk, actSlip] (by decide)

lemma foldlM_snoc {α β : Type} (f : β → α → Option β) (b : β) (l : List α) (x : α) :
    (l ++ [x]).foldlM f b = (l.foldlM f b).bind fun b2 => f b2 x := by
  induction l generalizing b with
  | nil => simp
  | cons y l ih =>
    rw [List.cons_append, List.foldlM_cons, List.foldlM_cons]
    cases h : f b y with
    | none => simp
    | some b2 => simp [ih]

/-- Success run of the `remove_liquidity` loop: when every minimum is
covered, the fold returns the floored proportional amounts and decrements
each reserve accordingly. -/
lemma removeStep_fold_ok (shares total : Nat) (mins : List Nat) (htot : 0 < total)
    (htot128 : total < U128MOD) (hst : shares ≤ total) :
    ∀ (n : Nat) (amts outs : List Nat), n ≤ amts.length → n ≤ mins.length →
    (∀ i, i < n → amts.getD i 0 < U128MOD) →
    (∀ i, i < n → mins.getD i 0 ≤ amts.getD i 0 * shares / total) →
    ∃ newAmts,
      (List.range n).foldlM (removeStep shares total mins) (amts, outs) =
        some (newAmts, outs ++ (List.range n).map
          (fun i => amts.getD i 0 * shares / total)) ∧
      newAmts.length = amts.length ∧
      (∀ i, i < n → newAmts.getD i 0 =
        amts.getD i 0 - amts.getD i 0 * shares / total) ∧
      (∀ i, n ≤ i → newAmts.getD i 0 = amts.getD i 0) := by
  intro n
  induction n with
  | zero =>
    intro amts outs hn hm hbal hmin
    exact ⟨amts, by simp, rfl, by omega, fun i _ => rfl⟩
  | succ n ih =>
    intro amts outs hn hm hbal hmin
    obtain ⟨A, hfold, hlen, hlt, hge⟩ := ih amts outs (by omega) (by omega)
      (fun i hi => hbal i (by omega)) (fun i hi => hmin i (by omega))
    have hAn : A.getD n 0 = amts.getD n 0 := hge n le_rfl
    have hbaln : amts.getD n 0 < U128MOD := hbal n (by omega)
    have hms : amts.getD n 0 * shares < U256MOD := by
      calc amts.getD n 0 * shares ≤ amts.getD n 0 * total := Nat.mul_le_mul_left _ hst
        _ < U128MOD * U128MOD :=
            mul_lt_mul'' hbaln htot128 (Nat.zero_le _) (Nat.zero_le _)
        _ = U256MOD := by decide
    have hqle : amts.getD n 0 * shares / total ≤ amts.getD n 0 := by
      calc amts.getD n 0 * shares / total ≤ amts.getD n 0 * total / total :=
            Nat.div_le_div_right (Nat.mul_le_mul_left _ hst)
        _ = amts.getD n 0 := Nat.mul_div_cancel _ htot
    have hq128 : amts.getD n 0 * shares / total < U128MOD := lt_of_le_of_lt hqle hbaln
    have hcond : n < A.length ∧ n < mins.length := by
      constructor
      · omega
      · omega
    have e1 : u256mul (A.getD n 0) shares = some (amts.getD n 0 * shares) := by
      rw [hAn]; unfold u256mul; rw [if_pos hms]
    have e2 : u256div (amts.getD n 0 * shares) total =
        some (amts.getD n 0 * shares / total) := by
      unfold u256div; rw [if_neg (by omega)]
    have e3 : u256asU128 (amts.getD n 0 * shares / total) =
        some (amts.getD n 0 * shares / total) := by
      unfold u256asU128; rw [if_pos hq128]
    have e4 : u128sub (A.getD n 0) (amts.getD n 0 * shares / total) =
        some (amts.getD n 0 - amts.getD n 0 * shares / total) := by
      rw [hAn]; unfold u128sub; rw [if_pos hqle]
    have e5 : mins.getD n 0 ≤ amts.getD n 0 * shares / total := hmin n (by omega)
    refine ⟨A.set n (amts.getD n 0 - amts.getD n 0 * shares / total), ?_, ?_, ?_, ?_⟩
    · rw [List.range_succ, foldlM_snoc, hfold]
      simp only [Option.some_bind, removeStep, if_pos hcond, e1, e2, e3, e4,
        if_pos e5, Option.map_some']
      simp [List.map_append, List.append_assoc]
    · simp [hlen]
    · intro i hi
      by_cases hin : i = n
      · subst hin
        rw [getD_set_self _ _ _ (by omega)]
      · rw [getD_set_ne _ _ _ _ (fun hh => hin hh.symm)]
        exact hlt i (by omega)
    · intro i hi
      rw [getD_set_ne _ _ _ _ (by omega)]
      exact hge i (by omega)

/-- Failing run of the `remove_liquidity` loop: when some token's floored
proportional amount is below its requested minimum, the fold aborts. -/
lemma removeStep_fold_fail (shares total : Nat) (mins : List Nat) (htot : 0 < total)
    (htot128 : total < U128MOD) (hst : shares ≤ total) :
    ∀ (n : Nat) (amts outs : List Nat), n ≤ amts.length → n ≤ mins.length →
    (∀ i, i < n → amts.getD i 0 < U128MOD) →
    (∃ i, i < n ∧ amts.getD i 0 * shares / total < mins.getD i 0) →
    (List.range n).foldlM (removeStep shares total mins) (amts, outs) = none := by
  intro n
  induction n with
  | zero =>
    intro amts outs _ _ _ hex
    obtain ⟨i, hi, -⟩ := hex
    omega
  | succ n ih =>
    intro amts outs hn hm hbal hex
    by_cases hex2 : ∃ i, i < n ∧ amts.getD i 0 * shares / total < mins.getD i 0
    · rw [List.range_succ, foldlM_snoc,
        ih amts outs (by omega) (by omega) (fun i hi => hbal i (by omega)) hex2]
      rfl
    · push_neg at hex2
      obtain ⟨i, hi, hviol⟩ := hex
      have hieq : i = n := by
        by_contra hne
        exact absurd hviol (not_lt.mpr (hex2 i (by omega)))
      subst hieq
      obtain ⟨A, hfold, hlen, hlt, hge⟩ := removeStep_fold_ok shares total mins htot
        htot128 hst i amts outs (by omega) (by omega)
        (fun i2 hi2 => hbal i2 (by omega)) hex2
      have hAn : A.getD i 0 = amts.getD i 0 := hge i le_rfl
      have hbaln : amts.getD i 0 < U128MOD := hbal i (by omega)
      have hms : amts.getD i 0 * shares < U256MOD := by
        calc amts.getD i 0 * shares ≤ amts.getD i 0 * total := Nat.mul_le_mul_left _ hst
          _ < U128MOD * U128MOD :=
              mul_lt_mul'' hbaln htot128 (Nat.zero_le _) (Nat.zero_le _)
          _ = U256MOD := by decide
      have hqle : amts.getD i 0 * shares / total ≤ amts.getD i 0 := by
        calc amts.getD i 0 * shares / total ≤ amts.getD i 0 * total / total :=
              Nat.div_le_div_right (Nat.mul_le_mul_left _ hst)
          _ = amts.getD i 0 := Nat.mul_div_cancel _ htot
      have hq128 : amts.getD i 0 * shares / total < U128MOD := lt_of_le_of_lt hqle hbaln
      have hcond : i < A.length ∧ i < mins.length := by
        constructor
        · omega
        · omega
      have e1 : u256mul (A.getD i 0) shares = some (amts.getD i 0 * shares) := by
        rw [hAn]; unfold u256mul; rw [if_pos hms]
      have e2 : u256div (amts.getD i 0 * shares) total =
          some (amts.getD i 0 * shares / total) := by
        unfold u256div; rw [if_neg (by omega)]
      have e3 : u256asU128 (amts.getD i 0 * shares / total) =
          some (amts.getD i 0 * shares / total) := by
        unfold u256asU128; rw [if_pos hq128]
      rw [List.range_succ, foldlM_snoc, hfold]
      simp only [Option.some_bind, removeStep, if_pos hcond, e1, e2, e3,
        if_neg (not_le.mpr hviol), Option.none_bind]

/-- C7: on a well-formed pool with an existing share entry `prev` for the
caller (covered by the total supply, as the reachable-state invariant
guarantees), `remove_liquidity` fails when the requested shares exceed the
recorded balance; it fails when any token's floored proportional amount
`reserve[i] * shares / totalShares` is below the requested minimum; and
otherwise it succeeds, pays out exactly the floored proportional amounts,
decrements every reserve by the amount paid, decrements the total supply by
the burnt shares, and decrements the caller's share entry, removing it when
it reaches zero. -/
theorem remove_liquidity_spec (p : Pool) (s : AccountId) (sh : Nat) (mins : List Nat)
    (hwf : p.wf) (hm : p.token_account_ids.length ≤ mins.length)
    (prev : Nat) (hprev : lkGet p.shares s = some prev)
    (hpt : prev ≤ p.shares_total_supply) (htot : 0 < p.shares_total_supply) :
    (prev < sh → p.remove_liquidity s sh mins = none) ∧
    ((∃ i, i < p.token_account_ids.length ∧
        p.amounts.getD i 0 * sh / p.shares_total_supply < mins.getD i 0) →
      p.remove_liquidity s sh mins = none) ∧
    (sh ≤ prev →
      (∀ i, i < p.token_account_ids.length →
        mins.getD i 0 ≤ p.amounts.getD i 0 * sh / p.shares_total_supply) →
      ∃ p' outs, p.remove_liquidity s sh mins = some (p', outs) ∧
        outs = (List.range p.token_account_ids.length).map
          (fun i => p.amounts.getD i 0 * sh / p.shares_total_supply) ∧
        p'.amounts.length = p.amounts.length ∧
        (∀ i, i < p.token_account_ids.length →
          p'.amounts.getD i 0 = p.amounts.getD i 0 -
            p.amounts.getD i 0 * sh / p.shares_total_supply) ∧
        (∀ i, p.token_account_ids.length ≤ i →
          p'.amounts.getD i 0 = p.amounts.getD i 0) ∧
        p'.shares_total_supply = p.shares_total_supply - sh ∧
        p'.shares = (if prev = sh then lkRemove p.shares s
          else lkInsert p.shares s (prev - sh)) ∧
        p'.token_account_ids = p.token_account_ids ∧ p'.fee = p.fee) := by
  have hlen_amts : p.amounts.length = p.token_account_ids.length := hwf.1
  have htot128 : p.shares_total_supply < U128MOD := hwf.2.2.2
  have hbal : ∀ i, i < p.token_account_ids.length → p.amounts.getD i 0 < U128MOD :=
    fun i hi => amounts_getD_lt hwf (by omega)
  refine ⟨?_, ?_, ?_⟩
  · intro hlt
    unfold Pool.remove_liquidity
    rw [hprev]
    simp only [Option.some_bind]
    rw [if_neg (by omega)]
  · intro hex
    unfold Pool.remove_liquidity
    rw [hprev]
    simp only [Option.some_bind]
    by_cases hle : sh ≤ prev
    · rw [if_pos hle,
        removeStep_fold_fail sh p.shares_total_supply mins htot htot128 (by omega)
          p.token_account_ids.length p.amounts [] (by omega) hm hbal hex]
      rfl
    · rw [if_neg hle]
  · intro hle hmin
    have hst : sh ≤ p.shares_total_supply := by omega
    obtain ⟨A, hfold, hlenA, hlt, hge⟩ := removeStep_fold_ok sh p.shares_total_supply
      mins htot htot128 hst p.token_account_ids.length p.amounts [] (by omega) hm
      hbal hmin
    refine ⟨Pool.mk p.token_account_ids A p.fee
      (if prev = sh then lkRemove p.shares s else lkInsert p.shares s (prev - sh))
      (p.shares_total_supply - sh),
      (List.range p.token_account_ids.length).map
        (fun i => p.amounts.getD i 0 * sh / p.shares_total_supply),
      ?_, rfl, hlenA, hlt, hge, rfl, rfl, rfl, rfl⟩
    unfold Pool.remove_liquidity
    rw [hprev]
    simp only [Option.some_bind]
    rw [if_pos hle, hfold]
    have esub : u128sub p.shares_total_supply sh =
        some (p.shares_total_supply - sh) := by
      unfold u128sub; rw [if_pos hst]
    simp only [Option.some_bind, esub, Option.map_some']
    simp

/-- Witness for C7: removing more shares than recorded fails on a live pool. -/
theorem remove_liquidity_spec_witness : poolA.remove_liquidity "u" 200 [1, 2] = none :=
  (remove_liquidity_spec poolA "u" 200 [1, 2] (by decide) (by decide) 100 (by decide)
    (by decide) (by decide)).1 (by decide)
